import Mathlib

/-!
Verification development for `airenamer.py`, a CLI tool renaming macOS
screenshots.  The Python source is shallowly embedded below: each `def`
mirrors one function of the source (same names where Lean allows), strings
are `String`/`List Char`, the filesystem is an explicit value, the wall
clock and the OpenAI collaborator are explicit parameters.

Regular expressions from the source are embedded as recursive-descent
matchers.  Python `re` backtracking is committed to deterministic choices
only where backtracking provably cannot change the result; each such spot
carries a comment with the disjointness argument.  Character classes
(`\d`, `\w`, `\s`, `str.lower`, `str.strip`) are modelled at their ASCII
meaning; the filenames handled by the tool are ASCII.
-/

namespace Airenamer

/-- Python `\s` over ASCII: space, tab, newline, carriage return,
vertical tab, form feed. -/
def pyIsSpace (c : Char) : Bool :=
  c = ' ' || c = '\t' || c = '\n' || c = '\r' || c = Char.ofNat 11 || c = Char.ofNat 12

/-- Python `\w` over ASCII: letters, digits, underscore. -/
def isWordC (c : Char) : Bool :=
  c.isAlphanum || c = '_'

/-- Numeric value of an ASCII digit character. -/
def digitVal (c : Char) : Nat := c.toNat - 48

/-- Case-insensitive literal matcher (re.IGNORECASE): the pattern chars are
given lowercase, each input char is compared lowercased.  Returns the rest
of the input after the literal. -/
def litCI : List Char → List Char → Option (List Char)
  | [], cs => some cs
  | _ :: _, [] => none
  | p :: ps, c :: cs => if c.toLower = p then litCI ps cs else none

/-- Single literal (case-irrelevant) character, e.g. `\.` or `-`. -/
def lit1 (ch : Char) : List Char → Option (List Char)
  | [] => none
  | c :: cs => if c = ch then some cs else none

/-- `\s+` followed by a context that cannot start with whitespace: the run is
maximal, since giving back a whitespace char to a non-whitespace context
always fails.  In `extract_datetime_from_screenshot`, every `\s+` is
followed by `\w`, `\d`, or a letter literal, all disjoint from `\s`. -/
def wsPlus : List Char → Option (List Char)
  | [] => none
  | c :: cs => if pyIsSpace c then some (cs.dropWhile pyIsSpace) else none

/-- `\w+` followed by `\s+`: maximal for the same disjointness reason. -/
def wordPlus : List Char → Option (List Char)
  | [] => none
  | c :: cs => if isWordC c then some (cs.dropWhile isWordC) else none

/-- Exactly `n` digits, accumulating the decimal value as Python `int`
does on the captured group. -/
def digitsAux : Nat → Nat → List Char → Option (Nat × List Char)
  | 0, acc, cs => some (acc, cs)
  | _ + 1, _, [] => none
  | n + 1, acc, c :: cs =>
    if c.isDigit then digitsAux n (10 * acc + digitVal c) cs else none

/-- `(\d{n})` with the captured group converted by `int`. -/
def digitsN (n : Nat) (cs : List Char) : Option (Nat × List Char) :=
  digitsAux n 0 cs

/-- `(\d{1,2})` followed by `\.` in the pattern: greedy (two digits when
available), and maximal munch is faithful because giving the second digit
back would place a digit where `\.` must match. -/
def digits12 : List Char → Option (Nat × List Char)
  | [] => none
  | c :: cs =>
    if c.isDigit then
      match cs with
      | c2 :: cs2 =>
        if c2.isDigit then some (10 * digitVal c + digitVal c2, cs2)
        else some (digitVal c, cs)
      | [] => some (digitVal c, [])
    else none

/-- The seven captured groups of the timestamp pattern, with `AM|PM`
remembered as a flag (the source upper-cases group 7 and compares to
`'PM'`/`'AM'`). -/
structure TsGroups where
  year : Nat
  month : Nat
  day : Nat
  hour12 : Nat
  minute : Nat
  second : Nat
  isPM : Bool
deriving DecidableEq

/-- Tail of the timestamp regex after the tool name and optional version
token: `\s+(\d{4})-(\d{2})-(\d{2})\s+at\s+(\d{1,2})\.(\d{2})\.(\d{2})\s+(AM|PM)`. -/
def matchTail (cs : List Char) : Option TsGroups := do
  let r ← wsPlus cs
  let (y, r) ← digitsN 4 r
  let r ← lit1 '-' r
  let (mo, r) ← digitsN 2 r
  let r ← lit1 '-' r
  let (dy, r) ← digitsN 2 r
  let r ← wsPlus r
  let r ← litCI ['a', 't'] r
  let r ← wsPlus r
  let (h, r) ← digits12 r
  let r ← lit1 '.' r
  let (mi, r) ← digitsN 2 r
  let r ← lit1 '.' r
  let (sec, r) ← digitsN 2 r
  let r ← wsPlus r
  match litCI ['a', 'm'] r with
  | some _ => some ⟨y, mo, dy, h, mi, sec, false⟩
  | none =>
    match litCI ['p', 'm'] r with
    | some _ => some ⟨y, mo, dy, h, mi, sec, true⟩
    | none => none

/-- Attempt of the full pattern
`(?:Screenshot|CleanShot)(?:\s+\w+)?\s+(\d{4})-...-(AM|PM)` at one input
position.  The alternation is committed (no input starts with both
`Screenshot` and `CleanShot` case-insensitively, and a retry of the second
alternative after a tail failure dies at its first character), and the
optional `(?:\s+\w+)?` group is tried present-first with the whole tail as
continuation, exactly as the backtracking engine does. -/
def matchAt (cs : List Char) : Option TsGroups :=
  match (litCI "screenshot".toList cs).orElse
      (fun _ => litCI "cleanshot".toList cs) with
  | none => none
  | some r =>
    match (do
        let r1 ← wsPlus r
        let r2 ← wordPlus r1
        matchTail r2) with
    | some g => some g
    | none => matchTail r

/-- `re.search`: the match at the leftmost succeeding position (a match at
the empty final position is impossible here, the pattern starts with a
literal). -/
def searchTs : List Char → Option TsGroups
  | [] => none
  | c :: cs => (matchAt (c :: cs)).orElse fun _ => searchTs cs

/-- The value `datetime.datetime` holds: a valid proleptic-Gregorian
calendar instant. -/
structure PyDateTime where
  year : Nat
  month : Nat
  day : Nat
  hour : Nat
  minute : Nat
  second : Nat
deriving DecidableEq

/-- Gregorian leap-year rule used by `datetime`. -/
def isLeapYear (y : Nat) : Bool :=
  y % 4 == 0 && (y % 100 != 0 || y % 400 == 0)

/-- Days in a month per `datetime`. -/
def daysInMonth (y m : Nat) : Nat :=
  if m == 2 then (if isLeapYear y then 29 else 28)
  else if m == 4 || m == 6 || m == 9 || m == 11 then 30
  else 31

/-- The `datetime(year, month, day, hour, minute, second)` constructor
succeeds exactly on these ranges (MINYEAR = 1, MAXYEAR = 9999); outside
them it raises `ValueError`. -/
def pyDateTimeValid (y mo dy h mi s : Nat) : Bool :=
  decide (1 ≤ y ∧ y ≤ 9999 ∧ 1 ≤ mo ∧ mo ≤ 12 ∧ 1 ≤ dy ∧
    dy ≤ daysInMonth y mo ∧ h ≤ 23 ∧ mi ≤ 59 ∧ s ≤ 59)

/-- The source's 12-to-24-hour conversion:
`if am_pm == 'PM' and hour != 12: hour += 12`
`elif am_pm == 'AM' and hour == 12: hour = 0`. -/
def to24 (h : Nat) (pm : Bool) : Nat :=
  if pm && h != 12 then h + 12
  else if !pm && h == 12 then 0
  else h

/-- `extract_datetime_from_screenshot`: search the single pattern, convert
to 24-hour, build the `datetime`; a `ValueError` (invalid calendar values)
falls through to `return None` since there is no further pattern. -/
def extract_datetime_from_screenshot (s : String) : Option PyDateTime :=
  match searchTs s.data with
  | none => none
  | some g =>
    let h := to24 g.hour12 g.isPM
    if pyDateTimeValid g.year g.month g.day h g.minute g.second then
      some ⟨g.year, g.month, g.day, h, g.minute, g.second⟩
    else none

/-- ASCII digit character for a value below 10. -/
def digitChar (n : Nat) : Char := Char.ofNat (48 + n)

/-- Two-digit zero-padded decimal, as `%m`, `%d`, `%H`, `%M`, `%S`. -/
def pad2 (n : Nat) : List Char := [digitChar (n / 10 % 10), digitChar (n % 10)]

/-- Three-digit zero-padded decimal (values below 1000). -/
def pad3 (n : Nat) : List Char :=
  [digitChar (n / 100 % 10), digitChar (n / 10 % 10), digitChar (n % 10)]

/-- Four-digit zero-padded decimal, as `%Y` (datetime years are 1–9999 and
the strftime table zero-pads the year to four digits). -/
def pad4 (n : Nat) : List Char :=
  [digitChar (n / 1000 % 10), digitChar (n / 100 % 10),
   digitChar (n / 10 % 10), digitChar (n % 10)]

/-- Hour as macOS writes it in a screenshot name: one or two digits,
no zero padding (values below 100). -/
def hourChars (h : Nat) : List Char :=
  if h < 10 then [digitChar (h % 10)]
  else [digitChar (h / 10 % 10), digitChar (h % 10)]

/-- The meridiem token of a formatted screenshot name. -/
def ampmChars (pm : Bool) : List Char :=
  if pm then ['P', 'M'] else ['A', 'M']

/-- A filename of the shape `Screenshot YYYY-MM-DD at H.MM.SS AM|PM.png`
(the shape the spec's round-trip property quantifies over). -/
def screenshotName (y mo dy h mi s : Nat) (pm : Bool) : String :=
  ⟨"Screenshot ".toList ++ pad4 y ++ '-' :: pad2 mo ++ '-' :: pad2 dy ++
    " at ".toList ++ hourChars h ++ '.' :: pad2 mi ++ '.' :: pad2 s ++
    ' ' :: ampmChars pm ++ ".png".toList⟩

/-- Split a (slash-free) filename at its last dot, if any:
`some (before, from-dot)`. -/
def splitLastDot : List Char → Option (List Char × List Char)
  | [] => none
  | c :: cs =>
    match splitLastDot cs with
    | some (st, sf) => some (c :: st, sf)
    | none => if c = '.' then some ([], c :: cs) else none

/-- `pathlib.PurePath(name).suffix` for a bare filename (the callers pass
`file_path.name`): the part from the last dot, unless that dot is the
first or the last character. -/
def pySuffix (name : String) : String :=
  match splitLastDot name.data with
  | some (st, sf) => if st ≠ [] ∧ 2 ≤ sf.length then ⟨sf⟩ else ""
  | none => ""

/-- `pathlib.PurePath(name).stem` for a bare filename. -/
def pyStem (name : String) : String :=
  match splitLastDot name.data with
  | some (st, sf) => if st ≠ [] ∧ 2 ≤ sf.length then ⟨st⟩ else name
  | none => name

/-- `dt.strftime("%Y-%m-%d_%H-%M-%S")`. -/
def fmtDatetime (t : PyDateTime) : String :=
  ⟨pad4 t.year ++ '-' :: pad2 t.month ++ '-' :: pad2 t.day ++
    '_' :: pad2 t.hour ++ '-' :: pad2 t.minute ++ '-' :: pad2 t.second⟩

/-- `now.strftime("%Y%m%d_%H%M%S")`. -/
def fmtTimestamp (t : PyDateTime) : String :=
  ⟨pad4 t.year ++ pad2 t.month ++ pad2 t.day ++
    '_' :: pad2 t.hour ++ pad2 t.minute ++ pad2 t.second⟩

/-- `dt.strftime("%Y-%m-%d")`. -/
def fmtDate (t : PyDateTime) : String :=
  ⟨pad4 t.year ++ '-' :: pad2 t.month ++ '-' :: pad2 t.day⟩

/-- One pass of `re.sub(r'[^\w\-]', '-', d)`: the class is a single
character, so the sub is a per-character replacement. -/
def replaceNonWord (c : Char) : Char :=
  if isWordC c || c == '-' then c else '-'

/-- `re.sub(r'-+', '-', d)`: collapse every hyphen run to one hyphen. -/
def collapseHyphens : List Char → List Char
  | [] => []
  | [c] => [c]
  | c :: c2 :: rest =>
    if c == '-' && c2 == '-' then collapseHyphens (c2 :: rest)
    else c :: collapseHyphens (c2 :: rest)

/-- Python `str.strip()` (ASCII whitespace). -/
def pyStrip (cs : List Char) : List Char :=
  ((cs.dropWhile pyIsSpace).reverse.dropWhile pyIsSpace).reverse

/-- Python `str.strip('-')`. -/
def trimHyphens (cs : List Char) : List Char :=
  ((cs.dropWhile (· == '-')).reverse.dropWhile (· == '-')).reverse

/-- Lines 104–121 of the source: clean the collaborator's raw text into a
filename core — `.strip()`, `.split('.')[0]`, the two `re.sub`s,
`.strip('-')`, `[:50]`, empty check, `.lower()`. -/
def sanitize_description (raw : String) : Option String :=
  let d := pyStrip raw.data
  let d := d.takeWhile (· != '.')
  let d := d.map replaceNonWord
  let d := collapseHyphens d
  let d := trimHyphens d
  let d := d.take 50
  if d = [] then none else some ⟨d.map Char.toLower⟩

/-- `analyze_image_with_openai`: the import/key/file/API failure paths all
return `None` and are collapsed into the `apiResponse` parameter being
`none`; on a response, the description is sanitized. -/
def analyze_image_with_openai (apiResponse : Option String) : Option String :=
  match apiResponse with
  | none => none
  | some raw => sanitize_description raw

/-- The prefix/suffix wrapping the source performs (twice, identically):
`if prefix: new_name = f"{prefix}_{new_name}"` then
`if suffix: new_name = f"{new_name}_{suffix}"`. -/
def addPreSuf (pre suf core : String) : String :=
  let n1 := if pre != "" then pre ++ "_" ++ core else core
  if suf != "" then n1 ++ "_" ++ suf else n1

/-- `generate_new_name`.  `hasFilePath` models `file_path is not None`,
`apiResponse` the external collaborator's outcome, `now` the wall clock
(`datetime.now()`). -/
def generate_new_name (old_name pat pre suf : String) (hasFilePath : Bool)
    (apiResponse : Option String) (now : PyDateTime) : String :=
  let file_ext := pySuffix old_name
  let base_name := pyStem old_name
  let aiName : Option String :=
    if (pat == "ai" || pat == "content") && hasFilePath then
      analyze_image_with_openai apiResponse
    else none
  match aiName with
  | some ai_name => addPreSuf pre suf ai_name ++ file_ext
  | none =>
    let pat2 := if pat == "ai" || pat == "content" then "datetime" else pat
    let core :=
      if pat2 == "datetime" then
        match extract_datetime_from_screenshot old_name with
        | some dt => fmtDatetime dt
        | none => fmtDatetime now
      else if pat2 == "timestamp" then fmtTimestamp now
      else if pat2 == "date" then
        match extract_datetime_from_screenshot old_name with
        | some dt => fmtDate dt
        | none => fmtDate now
      else base_name
    addPreSuf pre suf core ++ file_ext

/-- Python `$` (no MULTILINE): matches at the end of the string, or just
before a newline at the end of the string. -/
def dollarEnd (cs : List Char) : Bool := cs.isEmpty || cs == ['\n']

/-- Continue a partial match, failing if the front failed. -/
def thenB (o : Option (List Char)) (k : List Char → Bool) : Bool :=
  match o with
  | some r => k r
  | none => false

/-- `.*` then a continuation: `.` matches anything but a newline, and for a
boolean match the greedy backtracking order is irrelevant — some split
must succeed. -/
def dotStarThen (k : List Char → Bool) : List Char → Bool
  | [] => k []
  | c :: cs => k (c :: cs) || (c != '\n' && dotStarThen k cs)

/-- `\d{4}-\d{2}-\d{2} at \d{1,2}\.\d{2}\.\d{2} (AM|PM)\.png$`, the shared
tail of the first two classifier patterns (case-insensitive; `(AM|PM)` is
committed since the alternatives differ at their first character). -/
def tsShape (cs : List Char) : Bool :=
  thenB (do
    let (_, r) ← digitsN 4 cs
    let r ← lit1 '-' r
    let (_, r) ← digitsN 2 r
    let r ← lit1 '-' r
    let (_, r) ← digitsN 2 r
    let r ← litCI " at ".toList r
    let (_, r) ← digits12 r
    let r ← lit1 '.' r
    let (_, r) ← digitsN 2 r
    let r ← lit1 '.' r
    let (_, r) ← digitsN 2 r
    let r ← lit1 ' ' r
    let r ← (litCI ['a', 'm'] r).orElse (fun _ => litCI ['p', 'm'] r)
    litCI ".png".toList r) dollarEnd

/-- `.*` then a case-insensitive literal then `$`. -/
def dotStarLitEnd (ext : List Char) : List Char → Bool :=
  dotStarThen (fun r => thenB (litCI ext r) dollarEnd)

/-- `^Screenshot \d{4}-\d{2}-\d{2} at \d{1,2}\.\d{2}\.\d{2} (AM|PM)\.png$` -/
def pat1 (cs : List Char) : Bool := thenB (litCI "screenshot ".toList cs) tsShape

/-- `^Screen Shot \d{4}-\d{2}-\d{2} at \d{1,2}\.\d{2}\.\d{2} (AM|PM)\.png$` -/
def pat2 (cs : List Char) : Bool := thenB (litCI "screen shot ".toList cs) tsShape

/-- `^CleanShot.*\.png$` -/
def pat3 (cs : List Char) : Bool :=
  thenB (litCI "cleanshot".toList cs) (dotStarLitEnd ".png".toList)

/-- `^CleanShot.*\.jpg$` -/
def pat4 (cs : List Char) : Bool :=
  thenB (litCI "cleanshot".toList cs) (dotStarLitEnd ".jpg".toList)

/-- `^CleanShot.*\.jpeg$` -/
def pat5 (cs : List Char) : Bool :=
  thenB (litCI "cleanshot".toList cs) (dotStarLitEnd ".jpeg".toList)

/-- `^Screenshot.*\.png$` -/
def pat6 (cs : List Char) : Bool :=
  thenB (litCI "screenshot".toList cs) (dotStarLitEnd ".png".toList)

/-- `^Screen Shot.*\.png$` -/
def pat7 (cs : List Char) : Bool :=
  thenB (litCI "screen shot".toList cs) (dotStarLitEnd ".png".toList)

/-- The classifier's pattern loop alone: `re.match` of the seven anchored
shapes, each case-insensitive, any match suffices. -/
def shapeDisjunction (filename : String) : Bool :=
  pat1 filename.data || pat2 filename.data || pat3 filename.data ||
    pat4 filename.data || pat5 filename.data || pat6 filename.data ||
    pat7 filename.data

/-- `is_screenshot_file`: the case-insensitive extension pre-check, then
the pattern loop. -/
def is_screenshot_file (filename : String) : Bool :=
  let lower := filename.data.map Char.toLower
  if !(".png".toList.isSuffixOf lower || ".jpg".toList.isSuffixOf lower ||
      ".jpeg".toList.isSuffixOf lower) then false
  else shapeDisjunction filename

/-- `file_path.name`: the component after the last slash. -/
def baseName (p : String) : String :=
  ⟨(p.data.reverse.takeWhile (· != '/')).reverse⟩

/-- One filesystem entry under the scanned directory: its path relative to
that directory, and whether it is a file (`Path.is_file()`, which follows
symlinks, so directories and symlinks to directories report `false`). -/
structure FSEntry where
  path : String
  isFile : Bool
deriving DecidableEq

/-- `directory.glob("*.ext")` / `directory.glob("**/*.ext")` membership:
non-recursive matches direct children only (no slash in the relative
path); `fnmatch` of `*.ext` on the final component is a case-sensitive
suffix test (`*` may be empty and POSIX pathlib does not case-fold). -/
def globSel (recursive : Bool) (ext : String) (e : FSEntry) : Bool :=
  (recursive || !(e.path.data.contains '/')) &&
    ("." ++ ext).data.isSuffixOf (baseName e.path).data

/-- `find_screenshots`: the three globs concatenated, filtered to files
whose names classify as screenshots, then `sorted` (Path order, i.e.
lexicographic on the full path string; on a flat listing — no slashes —
this coincides with the parts-wise order older pathlib versions used). -/
def find_screenshots (fs : List FSEntry) (recursive : Bool) : List String :=
  let files := fs.filter (globSel recursive "png") ++
    fs.filter (globSel recursive "jpg") ++ fs.filter (globSel recursive "jpeg")
  let screenshots := files.filter
    (fun e => e.isFile && is_screenshot_file (baseName e.path))
  List.insertionSort (· ≤ ·) (screenshots.map FSEntry.path)

/-- Result of the rename executor: the returned flag, the filesystem after
the call (the set of existing absolute paths), and the destination path it
computed. -/
structure RenameResult where
  ok : Bool
  fs : List String
  dest : String
deriving DecidableEq

/-- `rename_screenshot`: skip when the destination exists, report when
dry-running, otherwise rename (the `except OSError` path is environmental
failure outside the model — the rename itself is the only mutation). -/
def rename_screenshot (fs : List String) (parentDir fileName new_name : String)
    (dry_run : Bool) : RenameResult :=
  let new_path := parentDir ++ "/" ++ new_name
  if fs.contains new_path then ⟨false, fs, new_path⟩
  else if dry_run then ⟨true, fs, new_path⟩
  else ⟨true, (fs.erase (parentDir ++ "/" ++ fileName)).concat new_path, new_path⟩

/-- Python `f"{n:03d}"`: zero-pad to three digits, wider numbers printed
in full. -/
def fmt03 (n : Nat) : String :=
  if n < 1000 then ⟨pad3 n⟩ else Nat.repr n

/-- The force-mode collision loop of `main` (lines 401–409), with the
directory's existing names as a list and explicit fuel (the concrete
claims below hold for every sufficient fuel):
`while base_path.exists(): new_name = f"{stem}_{counter:03d}{suffix}"`
where stem and suffix are re-taken from the current `new_name`. -/
def forceResolve (existing : List String) : Nat → String → Nat → String
  | 0, nn, _ => nn
  | fuel + 1, nn, counter =>
    if existing.contains nn then
      forceResolve existing fuel
        (pyStem nn ++ "_" ++ fmt03 counter ++ pySuffix nn) (counter + 1)
    else nn

/-- The 12-hour clock hour for a 24-hour value (how the instant appears in
a formatted screenshot name). -/
def hour12of (h : Nat) : Nat :=
  if h = 0 then 12 else if h ≤ 12 then h else h - 12

/-- Format a calendar instant as `Screenshot YYYY-MM-DD at H.MM.SS AM|PM.png`
(12-hour clock; AM for hours 0–11, PM for 12–23). -/
def format12 (y mo dy h mi s : Nat) : String :=
  screenshotName y mo dy (hour12of h) mi s (decide (12 ≤ h))

/-- The spec's assembly shape: prefix (with underscore separator, only if
non-empty), the core name, suffix (with underscore separator, only if
non-empty), then the original extension. -/
def assembled (pre suf core ext : String) : String :=
  (if pre = "" then "" else pre ++ "_") ++ core ++
    (if suf = "" then "" else "_" ++ suf) ++ ext

/-- The sanitization pipeline exactly as the spec words it: strip from the
first literal dot onward, replace any run of non-word non-hyphen
characters with a single hyphen (a per-character replacement followed by
the hyphen collapse produces precisely this), collapse consecutive
hyphens, trim leading/trailing hyphens, truncate to 50 characters,
lowercase; empty result means collaborator failure. -/
def sanitizeSpec (raw : String) : Option String :=
  let d := raw.data.takeWhile (· != '.')
  let d := d.map replaceNonWord
  let d := collapseHyphens d
  let d := trimHyphens d
  let d := d.take 50
  if d = [] then none else some ⟨d.map Char.toLower⟩

/-- A character list that ends, up to case, in `ext`, possibly followed by
one trailing newline (the two ways a Python `$`-anchored case-insensitive
literal can sit at the end of the subject). -/
def EndsCI (ext cs : List Char) : Prop :=
  ∃ u pre rest, cs = u ++ (pre ++ rest) ∧ pre.map Char.toLower = ext ∧
    (rest = [] ∨ rest = ['\n'])

/-! ### Digit-character facts -/

theorem digitChar_facts (k : Nat) (hk : k < 10) :
    (digitChar k).isDigit = true ∧ isWordC (digitChar k) = true ∧
      pyIsSpace (digitChar k) = false ∧ digitVal (digitChar k) = k := by
  interval_cases k <;> exact ⟨by decide, by decide, by decide, by decide⟩

@[simp] theorem isDigit_digitChar_mod (k : Nat) :
    (digitChar (k % 10)).isDigit = true :=
  (digitChar_facts _ (Nat.mod_lt _ (by norm_num))).1

@[simp] theorem isWordC_digitChar_mod (k : Nat) :
    isWordC (digitChar (k % 10)) = true :=
  (digitChar_facts _ (Nat.mod_lt _ (by norm_num))).2.1

@[simp] theorem pyIsSpace_digitChar_mod (k : Nat) :
    pyIsSpace (digitChar (k % 10)) = false :=
  (digitChar_facts _ (Nat.mod_lt _ (by norm_num))).2.2.1

@[simp] theorem digitVal_digitChar_mod (k : Nat) :
    digitVal (digitChar (k % 10)) = k % 10 :=
  (digitChar_facts _ (Nat.mod_lt _ (by norm_num))).2.2.2

/-! ### Parser lemmas on formatted input -/

theorem wsPlus_cons {c : Char} (hc : pyIsSpace c = false) (r : List Char) :
    wsPlus (' ' :: c :: r) = some (c :: r) := by
  have hsp : pyIsSpace ' ' = true := by decide
  simp only [wsPlus, hsp, if_true, List.dropWhile_cons, hc, if_false, Bool.false_eq_true]

theorem digitsAux_pad2 (n acc : Nat) (r : List Char) :
    digitsAux 2 acc (pad2 n ++ r) = some (100 * acc + n % 100, r) := by
  simp only [pad2, List.cons_append, List.nil_append, digitsAux,
    isDigit_digitChar_mod, if_true, digitVal_digitChar_mod]
  exact congrArg (fun v => some (v, r)) (by omega)

theorem digitsAux_pad4 (y acc : Nat) (r : List Char) :
    digitsAux 4 acc (pad4 y ++ r) = some (10000 * acc + y % 10000, r) := by
  simp only [pad4, List.cons_append, List.nil_append, digitsAux,
    isDigit_digitChar_mod, if_true, digitVal_digitChar_mod]
  exact congrArg (fun v => some (v, r)) (by omega)

theorem digits12_hourChars (h : Nat) (hh : h ≤ 99) (r : List Char) :
    digits12 (hourChars h ++ '.' :: r) = some (h, '.' :: r) := by
  have hdot : Char.isDigit '.' = false := by decide
  by_cases h10 : h < 10
  · have hm : h % 10 = h := Nat.mod_eq_of_lt h10
    obtain ⟨hd, -, -, hv⟩ := digitChar_facts h h10
    simp only [hourChars, h10, if_true, List.cons_append, List.nil_append, hm]
    simp only [digits12, hd, if_true, hdot, Bool.false_eq_true, if_false, hv]
  · have step : digits12 (digitChar (h / 10 % 10) :: digitChar (h % 10) :: '.' :: r) =
        some (10 * digitVal (digitChar (h / 10 % 10)) + digitVal (digitChar (h % 10)),
          '.' :: r) := by
      simp [digits12]
    simp only [hourChars, h10, if_false, List.cons_append, List.nil_append, step,
      digitVal_digitChar_mod]
    exact congrArg (fun v => some (v, '.' :: r)) (by omega)

theorem optBind_some {α β : Type} (a : α) (f : α → Option β) :
    (some a >>= f) = f a := rfl

theorem litCI_head {p c : Char} (h : c.toLower = p) (ps cs : List Char) :
    litCI (p :: ps) (c :: cs) = litCI ps cs := by
  simp [litCI, h]

theorem litCI_stop {p c : Char} (h : ¬c.toLower = p) (ps cs : List Char) :
    litCI (p :: ps) (c :: cs) = none := by
  simp [litCI, h]

theorem lit1_self (c : Char) (r : List Char) : lit1 c (c :: r) = some r := by
  simp [lit1]

theorem litCI_nil (cs : List Char) : litCI [] cs = some cs := rfl

theorem litCI_at (r : List Char) : litCI ['a', 't'] ('a' :: 't' :: r) = some r := by
  rw [litCI_head (by decide), litCI_head (by decide), litCI_nil]

theorem wsPlus_pad4 (y : Nat) (r : List Char) :
    wsPlus (' ' :: (pad4 y ++ r)) = some (pad4 y ++ r) := by
  simp only [pad4, List.cons_append]
  exact wsPlus_cons (pyIsSpace_digitChar_mod _) _

theorem wsPlus_hourChars (h : Nat) (r : List Char) :
    wsPlus (' ' :: (hourChars h ++ r)) = some (hourChars h ++ r) := by
  by_cases h10 : h < 10 <;>
    simp only [hourChars, h10, if_true, if_false, List.cons_append, List.nil_append] <;>
    exact wsPlus_cons (pyIsSpace_digitChar_mod _) _

theorem wsPlus_ampm (pm : Bool) (r : List Char) :
    wsPlus (' ' :: (ampmChars pm ++ r)) = some (ampmChars pm ++ r) := by
  cases pm <;>
    simp only [ampmChars, Bool.false_eq_true, if_true, if_false, List.cons_append,
      List.nil_append] <;>
    exact wsPlus_cons (by decide) _

theorem ampm_am (r : List Char) : litCI ['a', 'm'] (ampmChars false ++ r) = some r := by
  simp only [ampmChars, Bool.false_eq_true, if_false, List.cons_append, List.nil_append]
  rw [litCI_head (by decide), litCI_head (by decide), litCI_nil]

theorem ampm_pm_fail (r : List Char) : litCI ['a', 'm'] (ampmChars true ++ r) = none := by
  simp only [ampmChars, if_true, List.cons_append, List.nil_append]
  exact litCI_stop (by decide) _ _

theorem ampm_pm (r : List Char) : litCI ['p', 'm'] (ampmChars true ++ r) = some r := by
  simp only [ampmChars, if_true, List.cons_append, List.nil_append]
  rw [litCI_head (by decide), litCI_head (by decide), litCI_nil]

/-- The central parsing fact: on the canonical tail of a formatted
screenshot name, `matchTail` recovers exactly the embedded fields. -/
theorem matchTail_fmt (y mo dy h mi s : Nat) (pm : Bool) (rest : List Char)
    (hh : h ≤ 99) :
    matchTail (' ' :: (pad4 y ++ '-' :: (pad2 mo ++ '-' :: (pad2 dy ++
        ' ' :: 'a' :: 't' :: ' ' :: (hourChars h ++ '.' :: (pad2 mi ++
        '.' :: (pad2 s ++ ' ' :: (ampmChars pm ++ rest)))))))) =
      some ⟨y % 10000, mo % 100, dy % 100, h, mi % 100, s % 100, pm⟩ := by
  have ha : pyIsSpace 'a' = false := by decide
  cases pm
  · simp only [matchTail, wsPlus_pad4, digitsN, optBind_some, digitsAux_pad4,
      Nat.mul_zero, Nat.zero_add, lit1_self, digitsAux_pad2, wsPlus_cons ha,
      litCI_at, wsPlus_hourChars, digits12_hourChars h hh, wsPlus_ampm, ampm_am]
  · simp only [matchTail, wsPlus_pad4, digitsN, optBind_some, digitsAux_pad4,
      Nat.mul_zero, Nat.zero_add, lit1_self, digitsAux_pad2, wsPlus_cons ha,
      litCI_at, wsPlus_hourChars, digits12_hourChars h hh, wsPlus_ampm,
      ampm_pm_fail, ampm_pm]

theorem optBind_none {α β : Type} (f : α → Option β) :
    ((none : Option α) >>= f) = none := rfl

theorem optOrElse_some {α : Type} (a : α) (f : Unit → Option α) :
    (some a).orElse f = some a := rfl

theorem wsPlus_stop {c : Char} (hc : pyIsSpace c = false) (r : List Char) :
    wsPlus (c :: r) = none := by
  simp [wsPlus, hc]

theorem matchTail_nonws {c : Char} (hc : pyIsSpace c = false) (r : List Char) :
    matchTail (c :: r) = none := by
  simp only [matchTail, wsPlus_stop hc, optBind_none]

theorem litCI_screenshot (r : List Char) :
    litCI "screenshot".toList
      ('S' :: 'c' :: 'r' :: 'e' :: 'e' :: 'n' :: 's' :: 'h' :: 'o' :: 't' :: r) =
      some r := by
  show litCI ['s', 'c', 'r', 'e', 'e', 'n', 's', 'h', 'o', 't'] _ = some r
  rw [litCI_head (by decide), litCI_head (by decide), litCI_head (by decide),
    litCI_head (by decide), litCI_head (by decide), litCI_head (by decide),
    litCI_head (by decide), litCI_head (by decide), litCI_head (by decide),
    litCI_head (by decide), litCI_nil]

theorem wordPlus_pad4 (y : Nat) (X : List Char) :
    wordPlus (pad4 y ++ '-' :: X) = some ('-' :: X) := by
  have hminus : isWordC '-' = false := by decide
  simp only [pad4, List.cons_append, List.nil_append, wordPlus, isWordC_digitChar_mod,
    if_true, List.dropWhile_cons, hminus, Bool.false_eq_true, if_false]

theorem screenshotName_data (y mo dy h mi s : Nat) (pm : Bool) :
    (screenshotName y mo dy h mi s pm).data =
      'S' :: 'c' :: 'r' :: 'e' :: 'e' :: 'n' :: 's' :: 'h' :: 'o' :: 't' ::
      ' ' :: (pad4 y ++ '-' :: (pad2 mo ++ '-' :: (pad2 dy ++
      ' ' :: 'a' :: 't' :: ' ' :: (hourChars h ++ '.' :: (pad2 mi ++
      '.' :: (pad2 s ++ ' ' :: (ampmChars pm ++ ['.', 'p', 'n', 'g']))))))) := by
  show "Screenshot ".toList ++ pad4 y ++ '-' :: pad2 mo ++ '-' :: pad2 dy ++
      " at ".toList ++ hourChars h ++ '.' :: pad2 mi ++ '.' :: pad2 s ++
      ' ' :: ampmChars pm ++ ".png".toList = _
  simp only [show "Screenshot ".toList =
      ['S', 'c', 'r', 'e', 'e', 'n', 's', 'h', 'o', 't', ' '] from rfl,
    show " at ".toList = [' ', 'a', 't', ' '] from rfl,
    show ".png".toList = ['.', 'p', 'n', 'g'] from rfl,
    List.cons_append, List.nil_append, List.append_assoc]

/-- `matchAt` succeeds at position 0 of a formatted screenshot name: the
optional version-token group fails (a digit run cannot be followed by
whitespace there) and the plain tail matches. -/
theorem matchAt_fmt (y mo dy h mi s : Nat) (pm : Bool) (hh : h ≤ 99) :
    matchAt (screenshotName y mo dy h mi s pm).data =
      some ⟨y % 10000, mo % 100, dy % 100, h, mi % 100, s % 100, pm⟩ := by
  have hminus : pyIsSpace '-' = false := by decide
  rw [screenshotName_data]
  simp only [matchAt, litCI_screenshot, optOrElse_some, wsPlus_pad4, optBind_some,
    wordPlus_pad4, matchTail_nonws hminus, matchTail_fmt y mo dy h mi s pm _ hh]

theorem searchTs_of_matchAt {cs : List Char} {g : TsGroups}
    (hm : matchAt cs = some g) : searchTs cs = some g := by
  cases cs with
  | nil =>
    have hnone : matchAt [] = none := rfl
    rw [hnone] at hm
    exact Option.noConfusion hm
  | cons c r => simp only [searchTs, hm, optOrElse_some]

/-- Search over a canonically formatted screenshot name yields exactly the
embedded fields (all fields within their printed widths). -/
theorem searchTs_screenshotName (y mo dy h mi s : Nat) (pm : Bool)
    (hy : y ≤ 9999) (hmo : mo ≤ 99) (hd : dy ≤ 99) (hh : h ≤ 99)
    (hmi : mi ≤ 99) (hs : s ≤ 99) :
    searchTs (screenshotName y mo dy h mi s pm).data = some ⟨y, mo, dy, h, mi, s, pm⟩ := by
  have := searchTs_of_matchAt (matchAt_fmt y mo dy h mi s pm hh)
  rwa [Nat.mod_eq_of_lt (by omega), Nat.mod_eq_of_lt (by omega),
    Nat.mod_eq_of_lt (by omega), Nat.mod_eq_of_lt (by omega),
    Nat.mod_eq_of_lt (by omega)] at this

/-- Extraction on a canonically formatted screenshot name: convert the
hour, then succeed exactly when the `datetime` constructor accepts. -/
theorem extract_screenshotName (y mo dy h mi s : Nat) (pm : Bool)
    (hy : y ≤ 9999) (hmo : mo ≤ 99) (hd : dy ≤ 99) (hh : h ≤ 99)
    (hmi : mi ≤ 99) (hs : s ≤ 99) :
    extract_datetime_from_screenshot (screenshotName y mo dy h mi s pm) =
      (if pyDateTimeValid y mo dy (to24 h pm) mi s then
        some ⟨y, mo, dy, to24 h pm, mi, s⟩ else none) := by
  simp only [extract_datetime_from_screenshot,
    searchTs_screenshotName y mo dy h mi s pm hy hmo hd hh hmi hs]

theorem daysInMonth_le (y m : Nat) : daysInMonth y m ≤ 31 := by
  unfold daysInMonth
  split_ifs <;> simp

theorem to24_hour12of (h : Nat) (hh : h ≤ 23) :
    to24 (hour12of h) (decide (12 ≤ h)) = h := by
  interval_cases h <;> rfl

theorem hour12of_le (h : Nat) : hour12of h ≤ max 12 h := by
  unfold hour12of
  split_ifs <;> omega

/-- C3: formatting any valid calendar instant as
`Screenshot YYYY-MM-DD at H.MM.SS AM|PM.png` (12-hour clock) and running
the timestamp extractor recovers exactly the original instant; in
particular `12.00.00 AM` yields hour 0, `12.00.00 PM` hour 12, and
`1.00.00 PM` hour 13. -/
theorem claim_C3_roundtrip (y mo dy h mi s : Nat)
    (hv : pyDateTimeValid y mo dy h mi s = true) :
    extract_datetime_from_screenshot (format12 y mo dy h mi s) =
      some ⟨y, mo, dy, h, mi, s⟩ ∧
    extract_datetime_from_screenshot "Screenshot 2024-01-15 at 12.00.00 AM.png" =
      some ⟨2024, 1, 15, 0, 0, 0⟩ ∧
    extract_datetime_from_screenshot "Screenshot 2024-01-15 at 12.00.00 PM.png" =
      some ⟨2024, 1, 15, 12, 0, 0⟩ ∧
    extract_datetime_from_screenshot "Screenshot 2024-01-15 at 1.00.00 PM.png" =
      some ⟨2024, 1, 15, 13, 0, 0⟩ := by
  refine ⟨?_, by rfl, by rfl, by rfl⟩
  obtain ⟨f1, f2, f3, f4, f5, f6, f7, f8, f9⟩ := of_decide_eq_true hv
  have hd31 : dy ≤ 31 := f6.trans (daysInMonth_le y mo)
  have h12 : hour12of h ≤ 99 := (hour12of_le h).trans (by omega)
  rw [format12, extract_screenshotName y mo dy (hour12of h) mi s _ (by omega)
    (by omega) (by omega) h12 (by omega) (by omega), to24_hour12of h f7, if_pos hv]

/-- C3 witness at a concrete instant. -/
theorem claim_C3_roundtrip_witness :
    pyDateTimeValid 2024 1 15 15 45 10 = true ∧
    extract_datetime_from_screenshot (format12 2024 1 15 15 45 10) =
      some ⟨2024, 1, 15, 15, 45, 10⟩ ∧
    format12 2024 1 15 15 45 10 = "Screenshot 2024-01-15 at 3.45.10 PM.png" :=
  ⟨by decide, (claim_C3_roundtrip 2024 1 15 15 45 10 (by decide)).1, by rfl⟩

/-- C4: a filename that is well-formed for the extraction pattern but whose
embedded values do not form a real calendar instant (after 12-to-24
conversion) extracts to `none` — the `ValueError` is caught and no further
pattern exists. -/
theorem claim_C4_invalid_calendar (y mo dy h mi s : Nat) (pm : Bool)
    (hy : y ≤ 9999) (hmo : mo ≤ 99) (hd : dy ≤ 99) (hh : h ≤ 99)
    (hmi : mi ≤ 99) (hs : s ≤ 99)
    (hinvalid : pyDateTimeValid y mo dy (to24 h pm) mi s = false) :
    extract_datetime_from_screenshot (screenshotName y mo dy h mi s pm) = none := by
  rw [extract_screenshotName y mo dy h mi s pm hy hmo hd hh hmi hs, hinvalid]
  simp

/-- C4 witness: day 30 of February 2024. -/
theorem claim_C4_invalid_calendar_witness :
    screenshotName 2024 2 30 10 0 0 false = "Screenshot 2024-02-30 at 10.00.00 AM.png" ∧
    pyDateTimeValid 2024 2 30 (to24 10 false) 0 0 = false ∧
    extract_datetime_from_screenshot "Screenshot 2024-02-30 at 10.00.00 AM.png" = none :=
  ⟨by rfl, by decide, by
    have h := claim_C4_invalid_calendar 2024 2 30 10 0 0 false (by decide) (by decide)
      (by decide) (by decide) (by decide) (by decide) (by decide)
    rwa [show screenshotName 2024 2 30 10 0 0 false =
      "Screenshot 2024-02-30 at 10.00.00 AM.png" from rfl] at h⟩

/-- C5 counterexample: the hour field 13 lies outside 1–12, yet with `AM`
the extractor succeeds (hour 13 survives the conversion unchanged and is a
valid `datetime` hour), contradicting the claim that such filenames yield
the absent value. -/
theorem claim_C5_counterexample :
    extract_datetime_from_screenshot "Screenshot 2024-01-15 at 13.45.10 AM.png" =
      some ⟨2024, 1, 15, 13, 45, 10⟩ ∧
    extract_datetime_from_screenshot "Screenshot 2024-01-15 at 13.45.10 AM.png" ≠ none := by
  have h : extract_datetime_from_screenshot "Screenshot 2024-01-15 at 13.45.10 AM.png" =
      some ⟨2024, 1, 15, 13, 45, 10⟩ := by rfl
  exact ⟨h, by rw [h]; simp⟩

/-- C5 amended: the hour group `\d{1,2}` accepts any value 0–99; with the
other fields valid, extraction is absent exactly when the converted hour
is invalid — AM with hour ≥ 24, or PM with hour ≥ 13.  Hour fields 0 and
13–23 under AM are accepted unchanged. -/
theorem claim_C5_amended (y mo dy h mi s : Nat) (pm : Bool)
    (hok : pyDateTimeValid y mo dy 0 mi s = true) (hh : h ≤ 99) :
    (extract_datetime_from_screenshot (screenshotName y mo dy h mi s pm) = none ↔
      ((pm = false ∧ 24 ≤ h) ∨ (pm = true ∧ 13 ≤ h))) := by
  obtain ⟨f1, f2, f3, f4, f5, f6, -, f8, f9⟩ := of_decide_eq_true hok
  have hd31 : dy ≤ 31 := f6.trans (daysInMonth_le y mo)
  rw [extract_screenshotName y mo dy h mi s pm (by omega) (by omega) (by omega)
    hh (by omega) (by omega)]
  have h24 : (pyDateTimeValid y mo dy (to24 h pm) mi s = true) ↔ to24 h pm ≤ 23 := by
    unfold pyDateTimeValid
    rw [decide_eq_true_iff]
    exact ⟨fun hc => hc.2.2.2.2.2.2.1, fun hc => ⟨f1, f2, f3, f4, f5, f6, hc, f8, f9⟩⟩
  have t24f : to24 h false = if h = 12 then 0 else h := by
    simp [to24]
  have t24t : to24 h true = if h = 12 then 12 else h + 12 := by
    by_cases h12 : h = 12 <;> simp [to24, h12]
  have hto : to24 h pm ≤ 23 ↔ ¬((pm = false ∧ 24 ≤ h) ∨ (pm = true ∧ 13 ≤ h)) := by
    cases pm
    · rw [t24f]
      split_ifs with h12 <;> simp <;> omega
    · rw [t24t]
      split_ifs with h12 <;> simp <;> omega
  by_cases hv2 : pyDateTimeValid y mo dy (to24 h pm) mi s = true
  · rw [if_pos hv2]
    have hr := hto.mp (h24.mp hv2)
    exact ⟨fun hc => absurd hc (by simp), fun hc => absurd hc hr⟩
  · rw [if_neg hv2]
    have hr : ¬to24 h pm ≤ 23 := fun hc => hv2 (h24.mpr hc)
    have hrhs : (pm = false ∧ 24 ≤ h) ∨ (pm = true ∧ 13 ≤ h) := by
      by_contra hnr
      exact hr (hto.mpr hnr)
    exact ⟨fun _ => hrhs, fun _ => rfl⟩

/-- C5 amended witness: AM with hour field 24 is rejected. -/
theorem claim_C5_amended_witness :
    pyDateTimeValid 2024 1 15 0 0 0 = true ∧ (24 : Nat) ≤ 99 ∧
    extract_datetime_from_screenshot (screenshotName 2024 1 15 24 0 0 false) = none :=
  ⟨by decide, by decide,
    (claim_C5_amended 2024 1 15 24 0 0 false (by decide) (by decide)).mpr
      (Or.inl ⟨rfl, by decide⟩)⟩

/-- C2: the rename executor under the dry-run flag mutates nothing — the
filesystem after the call is the one before — and the destination path it
computes is the same one the non-dry-run call with identical inputs uses. -/
theorem claim_C2_dry_run_pure (fs : List String) (parentDir fileName nn : String) :
    (rename_screenshot fs parentDir fileName nn true).fs = fs ∧
    (rename_screenshot fs parentDir fileName nn true).dest =
      (rename_screenshot fs parentDir fileName nn false).dest := by
  unfold rename_screenshot
  by_cases hc : parentDir ++ "/" ++ nn ∈ fs <;> simp [hc]

/-- C1 (code behaviour): with `shot.png` and `shot_001.png` present and
computed name `shot.png`, the force-mode loop of `main` yields
`shot_001_002.png`, not the `shot_002.png` the spec states — the loop
re-derives the stem from the already-suffixed current name, so counters
accumulate instead of replacing.  The result is fuel-independent once the
loop exits. -/
theorem claim_C1_force_loop_behaviour (fuel : Nat) :
    forceResolve ["shot.png", "shot_001.png"] (fuel + 3) "shot.png" 1 =
      "shot_001_002.png" ∧
    ("shot_001_002.png" : String) ≠ "shot_002.png" := by
  refine ⟨?_, by decide⟩
  have s1 : forceResolve ["shot.png", "shot_001.png"] (fuel + 3) "shot.png" 1 =
      forceResolve ["shot.png", "shot_001.png"] (fuel + 2) "shot_001.png" 2 := by
    rw [show fuel + 3 = (fuel + 2) + 1 from rfl, forceResolve]
    rw [if_pos (by decide)]
    rfl
  have s2 : forceResolve ["shot.png", "shot_001.png"] (fuel + 2) "shot_001.png" 2 =
      forceResolve ["shot.png", "shot_001.png"] (fuel + 1) "shot_001_002.png" 3 := by
    rw [show fuel + 2 = (fuel + 1) + 1 from rfl, forceResolve]
    rw [if_pos (by decide)]
    rfl
  have s3 : forceResolve ["shot.png", "shot_001.png"] (fuel + 1) "shot_001_002.png" 3 =
      "shot_001_002.png" := by
    rw [forceResolve, if_neg (by decide)]
  rw [s1, s2, s3]

theorem addPreSuf_assembled (pre suf core ext : String) :
    addPreSuf pre suf core ++ ext = assembled pre suf core ext := by
  unfold addPreSuf assembled
  by_cases hp : pre = "" <;> by_cases hs : suf = "" <;>
    simp [hp, hs, bne_iff_ne, String.append_assoc]

/-- C6: the generator assembles prefix (underscore-joined, only if
non-empty), then the pattern-derived core, then suffix (underscore-joined,
only if non-empty), then the original extension; concretely the two
end-to-end examples of the spec. -/
theorem claim_C6_assembly :
    (∀ (old pat pre suf : String) (hasFP : Bool) (api : Option String)
        (now : PyDateTime), ∃ core,
      generate_new_name old pat pre suf hasFP api now =
        assembled pre suf core (pySuffix old)) ∧
    (∀ now, generate_new_name "Screenshot 2024-01-15 at 3.45.10 PM.png"
        "datetime" "" "" false none now = "2024-01-15_15-45-10.png") ∧
    (∀ now, generate_new_name "Screenshot 2024-01-15 at 3.45.10 PM.png"
        "date" "proj" "final" false none now = "proj_2024-01-15_final.png") := by
  refine ⟨?_, fun now => rfl, fun now => rfl⟩
  intro old pat pre suf hasFP api now
  unfold generate_new_name
  cases hai : (if (pat == "ai" || pat == "content") && hasFP then
      analyze_image_with_openai api else none) with
  | some a => exact ⟨a, addPreSuf_assembled pre suf a (pySuffix old)⟩
  | none => exact ⟨_, addPreSuf_assembled pre suf _ (pySuffix old)⟩

/-- C8: whatever the pattern, prefix, suffix, and collaborator outcome,
the generated filename is some base followed by exactly the extension
found on the source name (case preserved, taken verbatim, never
re-derived) — including on the AI path. -/
theorem claim_C8_extension_invariant (old pat pre suf : String) (hasFP : Bool)
    (api : Option String) (now : PyDateTime) :
    ∃ base, generate_new_name old pat pre suf hasFP api now = base ++ pySuffix old := by
  unfold generate_new_name
  cases hai : (if (pat == "ai" || pat == "content") && hasFP then
      analyze_image_with_openai api else none) with
  | some a => exact ⟨addPreSuf pre suf a, rfl⟩
  | none => exact ⟨_, rfl⟩

theorem bool_and_split {a b : Bool} (h : (a && b) = true) : a = true ∧ b = true := by
  cases a <;> cases b <;> simp_all

theorem bool_and_join {a b : Bool} (h1 : a = true) (h2 : b = true) : (a && b) = true := by
  rw [h1, h2]
  rfl

theorem suffix_exclusive {s1 s2 cs : List Char} (h1 : s1.isSuffixOf cs = true)
    (h2 : s2.isSuffixOf cs = true) (hn1 : ¬s1 <:+ s2) (hn2 : ¬s2 <:+ s1) : False := by
  rw [List.isSuffixOf_iff_suffix] at h1 h2
  rcases List.suffix_or_suffix_of_suffix h1 h2 with h | h
  exacts [hn1 h, hn2 h]

/-- C9 counterexample: a regular file with an upper-case extension
satisfies the Classifier (its checks are case-insensitive) but the
collector misses it, because `Path.glob` matching is case-sensitive — so
the result does not contain exactly the regular files whose names satisfy
the Classifier. -/
theorem claim_C9_counterexample :
    is_screenshot_file "Screenshot 2024-01-01 at 10.00.00 AM.PNG" = true ∧
    (⟨"Screenshot 2024-01-01 at 10.00.00 AM.PNG", true⟩ : FSEntry).isFile = true ∧
    find_screenshots [⟨"Screenshot 2024-01-01 at 10.00.00 AM.PNG", true⟩] false = [] := by
  exact ⟨by rfl, rfl, by rfl⟩

/-- C9 amended: the collector's result is sorted (lexicographically on the
full path), duplicate-free, and contains exactly the paths of entries that
are files (directories and symlinks to directories excluded), lie at an
allowed depth, end case-sensitively in `.png`/`.jpg`/`.jpeg` (glob is
case-sensitive), and whose names satisfy the Classifier. -/
theorem claim_C9_amended (fs : List FSEntry) (recursive : Bool)
    (hnd : (fs.map FSEntry.path).Nodup) :
    List.Sorted (· ≤ ·) (find_screenshots fs recursive) ∧
    (find_screenshots fs recursive).Nodup ∧
    (∀ p, p ∈ find_screenshots fs recursive ↔
      ∃ e, e ∈ fs ∧ e.path = p ∧ e.isFile = true ∧
        (recursive || !(p.data.contains '/')) = true ∧
        (".png".data.isSuffixOf (baseName p).data = true ∨
         ".jpg".data.isSuffixOf (baseName p).data = true ∨
         ".jpeg".data.isSuffixOf (baseName p).data = true) ∧
        is_screenshot_file (baseName p) = true) := by
  refine ⟨?_, ?_, ?_⟩
  · unfold find_screenshots
    exact List.sorted_insertionSort _ _
  · unfold find_screenshots
    rw [(List.perm_insertionSort _ _).nodup_iff]
    refine List.Nodup.sublist ((List.filter_sublist _).map _) ?_
    rw [List.map_append, List.map_append]
    have hsub : ∀ g : FSEntry → Bool,
        ((fs.filter g).map FSEntry.path).Nodup :=
      fun g => List.Nodup.sublist ((List.filter_sublist fs).map _) hnd
    have key : ∀ (e1 e2 : FSEntry) (x1 x2 : List Char),
        e1.path = e2.path → x1.isSuffixOf (baseName e1.path).data = true →
        x2.isSuffixOf (baseName e2.path).data = true → ¬x1 <:+ x2 → ¬x2 <:+ x1 → False := by
      intro e1 e2 x1 x2 hp h1 h2 hn1 hn2
      rw [hp] at h1
      exact suffix_exclusive h1 h2 hn1 hn2
    have hglob : ∀ (ext : String) (e : FSEntry), globSel recursive ext e = true →
        ("." ++ ext).data.isSuffixOf (baseName e.path).data = true :=
      fun ext e hg => (bool_and_split hg).2
    have hd12 : List.Disjoint ((fs.filter (globSel recursive "png")).map FSEntry.path)
        ((fs.filter (globSel recursive "jpg")).map FSEntry.path) := by
      intro p hp1 hp2
      obtain ⟨e1, he1, hpe1⟩ := List.mem_map.mp hp1
      obtain ⟨e2, he2, hpe2⟩ := List.mem_map.mp hp2
      exact key e1 e2 _ _ (hpe1.trans hpe2.symm)
        (hglob "png" e1 (List.mem_filter.mp he1).2)
        (hglob "jpg" e2 (List.mem_filter.mp he2).2) (by decide) (by decide)
    have hd13 : List.Disjoint ((fs.filter (globSel recursive "png")).map FSEntry.path)
        ((fs.filter (globSel recursive "jpeg")).map FSEntry.path) := by
      intro p hp1 hp2
      obtain ⟨e1, he1, hpe1⟩ := List.mem_map.mp hp1
      obtain ⟨e2, he2, hpe2⟩ := List.mem_map.mp hp2
      exact key e1 e2 _ _ (hpe1.trans hpe2.symm)
        (hglob "png" e1 (List.mem_filter.mp he1).2)
        (hglob "jpeg" e2 (List.mem_filter.mp he2).2) (by decide) (by decide)
    have hd23 : List.Disjoint ((fs.filter (globSel recursive "jpg")).map FSEntry.path)
        ((fs.filter (globSel recursive "jpeg")).map FSEntry.path) := by
      intro p hp1 hp2
      obtain ⟨e1, he1, hpe1⟩ := List.mem_map.mp hp1
      obtain ⟨e2, he2, hpe2⟩ := List.mem_map.mp hp2
      exact key e1 e2 _ _ (hpe1.trans hpe2.symm)
        (hglob "jpg" e1 (List.mem_filter.mp he1).2)
        (hglob "jpeg" e2 (List.mem_filter.mp he2).2) (by decide) (by decide)
    exact ((hsub _).append (hsub _) hd12).append (hsub _)
      (by rw [List.disjoint_append_left]; exact ⟨hd13, hd23⟩)
  · intro p
    unfold find_screenshots
    rw [List.mem_insertionSort]
    simp only [List.mem_map, List.mem_filter, List.mem_append]
    constructor
    · rintro ⟨e, ⟨hmem, hq⟩, rfl⟩
      obtain ⟨hfile, hcls⟩ := bool_and_split hq
      rcases hmem with (⟨he, hg⟩ | ⟨he, hg⟩) | ⟨he, hg⟩ <;>
        obtain ⟨hrec, hsuf⟩ := bool_and_split hg
      · exact ⟨e, he, rfl, hfile, hrec, Or.inl hsuf, hcls⟩
      · exact ⟨e, he, rfl, hfile, hrec, Or.inr (Or.inl hsuf), hcls⟩
      · exact ⟨e, he, rfl, hfile, hrec, Or.inr (Or.inr hsuf), hcls⟩
    · rintro ⟨e, he, rfl, hfile, hrec, hsuf, hcls⟩
      have hq : (e.isFile && is_screenshot_file (baseName e.path)) = true :=
        bool_and_join hfile hcls
      rcases hsuf with hs | hs | hs
      · exact ⟨e, ⟨Or.inl (Or.inl ⟨he, bool_and_join hrec hs⟩), hq⟩, rfl⟩
      · exact ⟨e, ⟨Or.inl (Or.inr ⟨he, bool_and_join hrec hs⟩), hq⟩, rfl⟩
      · exact ⟨e, ⟨Or.inr ⟨he, bool_and_join hrec hs⟩, hq⟩, rfl⟩

/-- C9 amended witness at a small concrete listing. -/
theorem claim_C9_amended_witness :
    (([⟨"b.png", true⟩, ⟨"CleanShot a.png", true⟩] : List FSEntry).map
      FSEntry.path).Nodup ∧
    find_screenshots [⟨"b.png", true⟩, ⟨"CleanShot a.png", true⟩] false =
      ["CleanShot a.png"] ∧
    ("CleanShot a.png" ∈
      find_screenshots [⟨"b.png", true⟩, ⟨"CleanShot a.png", true⟩] false ↔
      ∃ e, e ∈ ([⟨"b.png", true⟩, ⟨"CleanShot a.png", true⟩] : List FSEntry) ∧
        e.path = "CleanShot a.png" ∧ e.isFile = true ∧
        (false || !(("CleanShot a.png" : String).data.contains '/')) = true ∧
        (".png".data.isSuffixOf (baseName "CleanShot a.png").data = true ∨
         ".jpg".data.isSuffixOf (baseName "CleanShot a.png").data = true ∨
         ".jpeg".data.isSuffixOf (baseName "CleanShot a.png").data = true) ∧
        is_screenshot_file (baseName "CleanShot a.png") = true) :=
  ⟨by decide, by rfl,
    (claim_C9_amended [⟨"b.png", true⟩, ⟨"CleanShot a.png", true⟩] false
      (by decide)).2.2 "CleanShot a.png"⟩

/-! ### Inversion lemmas for the classifier matchers (claim C10) -/

theorem bind_some_inv {α β : Type} {o : Option α} {f : α → Option β} {b : β}
    (h : (o >>= f) = some b) : ∃ a, o = some a ∧ f a = some b := by
  cases o with
  | none => exact absurd h (by simp)
  | some a => exact ⟨a, rfl, h⟩

theorem thenB_true_inv {o : Option (List Char)} {k : List Char → Bool}
    (h : thenB o k = true) : ∃ r, o = some r ∧ k r = true := by
  cases o with
  | none => exact absurd h (by simp [thenB])
  | some r => exact ⟨r, rfl, h⟩

theorem orElse_some_inv {α : Type} {o : Option α} {f : Unit → Option α} {b : α}
    (h : o.orElse f = some b) : o = some b ∨ f () = some b := by
  cases o with
  | none => exact Or.inr h
  | some a => exact Or.inl h

theorem dollarEnd_inv {cs : List Char} (h : dollarEnd cs = true) :
    cs = [] ∨ cs = ['\n'] := by
  cases cs with
  | nil => exact Or.inl rfl
  | cons c r =>
    right
    simp only [dollarEnd, List.isEmpty, Bool.false_or] at h
    exact eq_of_beq h

theorem litCI_structure : ∀ (p cs r : List Char), litCI p cs = some r →
    ∃ pre, cs = pre ++ r ∧ pre.map Char.toLower = p := by
  intro p
  induction p with
  | nil =>
    intro cs r h
    have : cs = r := by
      have h' : some cs = some r := h
      exact Option.some_inj.mp h'
    exact ⟨[], by rw [this, List.nil_append], rfl⟩
  | cons pc ps ih =>
    intro cs r h
    cases cs with
    | nil => exact absurd h (by simp [litCI])
    | cons c cs' =>
      by_cases hc : c.toLower = pc
      · rw [litCI, if_pos hc] at h
        obtain ⟨pre', hcs', hmap⟩ := ih cs' r h
        exact ⟨c :: pre', by rw [hcs', List.cons_append], by
          rw [List.map_cons, hmap, hc]⟩
      · rw [litCI, if_neg hc] at h
        exact Option.noConfusion h

theorem litCI_suffix {p cs r : List Char} (h : litCI p cs = some r) : r <:+ cs := by
  obtain ⟨pre, hcs, -⟩ := litCI_structure p cs r h
  exact ⟨pre, hcs.symm⟩

theorem lit1_suffix {c : Char} {cs r : List Char} (h : lit1 c cs = some r) : r <:+ cs := by
  cases cs with
  | nil => exact absurd h (by simp [lit1])
  | cons c' cs' =>
    by_cases hc : c' = c
    · rw [lit1, if_pos hc] at h
      rw [← Option.some_inj.mp h]
      exact (List.suffix_cons c' cs')
    · rw [lit1, if_neg hc] at h
      exact Option.noConfusion h

theorem digitsAux_suffix : ∀ (n acc : Nat) (cs : List Char) {v : Nat} {r : List Char},
    digitsAux n acc cs = some (v, r) → r <:+ cs := by
  intro n
  induction n with
  | zero =>
    intro acc cs v r h
    have : cs = r := congrArg Prod.snd (Option.some_inj.mp h)
    exact this ▸ List.suffix_rfl
  | succ m ih =>
    intro acc cs v r h
    cases cs with
    | nil => exact absurd h (by simp [digitsAux])
    | cons c cs' =>
      by_cases hc : c.isDigit
      · rw [digitsAux, if_pos hc] at h
        exact (ih _ cs' h).trans (List.suffix_cons c cs')
      · rw [digitsAux, if_neg hc] at h
        exact Option.noConfusion h

theorem digitsN_suffix {n : Nat} {cs : List Char} {v : Nat} {r : List Char}
    (h : digitsN n cs = some (v, r)) : r <:+ cs :=
  digitsAux_suffix n 0 cs h

theorem digits12_suffix {cs : List Char} {v : Nat} {r : List Char}
    (h : digits12 cs = some (v, r)) : r <:+ cs := by
  cases cs with
  | nil => exact absurd h (by simp [digits12])
  | cons c cs' =>
    by_cases hc : c.isDigit
    · cases cs' with
      | nil =>
        rw [digits12, if_pos hc] at h
        have : ([] : List Char) = r := congrArg Prod.snd (Option.some_inj.mp h)
        exact this ▸ List.nil_suffix
      | cons c2 cs2 =>
        by_cases hc2 : c2.isDigit
        · rw [digits12, if_pos hc] at h
          simp only [hc2, if_true] at h
          have : cs2 = r := congrArg Prod.snd (Option.some_inj.mp h)
          exact this ▸ ((List.suffix_cons c2 cs2).trans (List.suffix_cons c _))
        · rw [digits12, if_pos hc] at h
          simp only [hc2, Bool.false_eq_true, if_false] at h
          have : c2 :: cs2 = r := congrArg Prod.snd (Option.some_inj.mp h)
          exact this ▸ List.suffix_cons c _
    · rw [digits12.eq_def] at h
      simp only [hc, Bool.false_eq_true, if_false] at h
      exact Option.noConfusion h

theorem dotStarThen_inv {k : List Char → Bool} :
    ∀ {cs : List Char}, dotStarThen k cs = true →
      ∃ r, r <:+ cs ∧ k r = true := by
  intro cs
  induction cs with
  | nil => exact fun h => ⟨[], List.suffix_rfl, h⟩
  | cons c cs' ih =>
    intro h
    rcases (Bool.or_eq_true _ _).mp h with hk | hrec
    · exact ⟨c :: cs', List.suffix_rfl, hk⟩
    · obtain ⟨r, hr, hk⟩ := ih (bool_and_split hrec).2
      exact ⟨r, hr.trans (List.suffix_cons c cs'), hk⟩

theorem EndsCI_mono {ext r cs : List Char} (hr : r <:+ cs) (he : EndsCI ext r) :
    EndsCI ext cs := by
  obtain ⟨u, pre, rest, hr', hmap, hrest⟩ := he
  obtain ⟨t, ht⟩ := hr
  exact ⟨t ++ u, pre, rest, by rw [← ht, hr', List.append_assoc], hmap, hrest⟩

/-- A case-insensitive-match-plus-`$` at the very end of the subject gives
`EndsCI`. -/
theorem EndsCI_of_litCI_dollar {ext r rest : List Char}
    (h : litCI ext r = some rest) (hd : dollarEnd rest = true) : EndsCI ext r := by
  obtain ⟨pre, hr, hmap⟩ := litCI_structure ext r rest h
  exact ⟨[], pre, rest, by rw [hr, List.nil_append], hmap, dollarEnd_inv hd⟩

/-- Without a trailing newline, `EndsCI ext` forces the lowercased subject
to end in `ext`. -/
theorem EndsCI_ends {ext cs : List Char} (he : EndsCI ext cs)
    (hnl : cs.getLast? ≠ some '\n') :
    ext.isSuffixOf (cs.map Char.toLower) = true := by
  obtain ⟨u, pre, rest, hcs, hmap, hrest⟩ := he
  rcases hrest with rfl | rfl
  · rw [List.isSuffixOf_iff_suffix, hcs, List.append_nil, List.map_append, ← hmap]
    exact List.suffix_append _ _
  · exfalso
    apply hnl
    rw [hcs, ← List.append_assoc, List.getLast?_concat]

/-- Any successful match of the shared timestamp tail ends, up to case, in
`.png` (with `$` possibly sitting before one trailing newline). -/
theorem tsShape_ends {cs : List Char} (h : tsShape cs = true) :
    EndsCI ".png".data cs := by
  unfold tsShape at h
  obtain ⟨rfin, hdo, hdol⟩ := thenB_true_inv h
  obtain ⟨⟨v1, r1⟩, e1, hdo⟩ := bind_some_inv hdo
  obtain ⟨r2, e2, hdo⟩ := bind_some_inv hdo
  obtain ⟨⟨v3, r3⟩, e3, hdo⟩ := bind_some_inv hdo
  obtain ⟨r4, e4, hdo⟩ := bind_some_inv hdo
  obtain ⟨⟨v5, r5⟩, e5, hdo⟩ := bind_some_inv hdo
  obtain ⟨r6, e6, hdo⟩ := bind_some_inv hdo
  obtain ⟨⟨v7, r7⟩, e7, hdo⟩ := bind_some_inv hdo
  obtain ⟨r8, e8, hdo⟩ := bind_some_inv hdo
  obtain ⟨⟨v9, r9⟩, e9, hdo⟩ := bind_some_inv hdo
  obtain ⟨r10, e10, hdo⟩ := bind_some_inv hdo
  obtain ⟨⟨v11, r11⟩, e11, hdo⟩ := bind_some_inv hdo
  obtain ⟨r12, e12, hdo⟩ := bind_some_inv hdo
  obtain ⟨r13, e13, hdo⟩ := bind_some_inv hdo
  have s13 : r13 <:+ r12 := by
    rcases orElse_some_inv e13 with hl | hl <;> exact litCI_suffix hl
  have hsuf : r13 <:+ cs :=
    (((((((((((((s13.trans (lit1_suffix e12)).trans (digitsN_suffix e11)).trans
      (lit1_suffix e10)).trans (digitsN_suffix e9)).trans (lit1_suffix e8)).trans
      (digits12_suffix e7)).trans (litCI_suffix e6)).trans (digitsN_suffix e5)).trans
      (lit1_suffix e4)).trans (digitsN_suffix e3)).trans (lit1_suffix e2)).trans
      (digitsN_suffix e1)))
  exact EndsCI_mono hsuf (EndsCI_of_litCI_dollar hdo hdol)

theorem dotStarLitEnd_ends {ext cs : List Char} (h : dotStarLitEnd ext cs = true) :
    EndsCI ext cs := by
  obtain ⟨r, hr, hk⟩ := dotStarThen_inv h
  obtain ⟨rest, hlit, hdol⟩ := thenB_true_inv hk
  exact EndsCI_mono hr (EndsCI_of_litCI_dollar hlit hdol)

theorem pat1_ends {cs : List Char} (h : pat1 cs = true) : EndsCI ".png".data cs := by
  obtain ⟨r, hlit, hts⟩ := thenB_true_inv h
  exact EndsCI_mono (litCI_suffix hlit) (tsShape_ends hts)

theorem pat2_ends {cs : List Char} (h : pat2 cs = true) : EndsCI ".png".data cs := by
  obtain ⟨r, hlit, hts⟩ := thenB_true_inv h
  exact EndsCI_mono (litCI_suffix hlit) (tsShape_ends hts)

theorem pat3_ends {cs : List Char} (h : pat3 cs = true) : EndsCI ".png".data cs := by
  obtain ⟨r, hlit, hds⟩ := thenB_true_inv h
  exact EndsCI_mono (litCI_suffix hlit) (dotStarLitEnd_ends hds)

theorem pat4_ends {cs : List Char} (h : pat4 cs = true) : EndsCI ".jpg".data cs := by
  obtain ⟨r, hlit, hds⟩ := thenB_true_inv h
  exact EndsCI_mono (litCI_suffix hlit) (dotStarLitEnd_ends hds)

theorem pat5_ends {cs : List Char} (h : pat5 cs = true) : EndsCI ".jpeg".data cs := by
  obtain ⟨r, hlit, hds⟩ := thenB_true_inv h
  exact EndsCI_mono (litCI_suffix hlit) (dotStarLitEnd_ends hds)

theorem pat6_ends {cs : List Char} (h : pat6 cs = true) : EndsCI ".png".data cs := by
  obtain ⟨r, hlit, hds⟩ := thenB_true_inv h
  exact EndsCI_mono (litCI_suffix hlit) (dotStarLitEnd_ends hds)

theorem pat7_ends {cs : List Char} (h : pat7 cs = true) : EndsCI ".png".data cs := by
  obtain ⟨r, hlit, hds⟩ := thenB_true_inv h
  exact EndsCI_mono (litCI_suffix hlit) (dotStarLitEnd_ends hds)

theorem is_screenshot_file_eq (s : String) :
    is_screenshot_file s =
      ((".png".toList.isSuffixOf (s.data.map Char.toLower) ||
        ".jpg".toList.isSuffixOf (s.data.map Char.toLower) ||
        ".jpeg".toList.isSuffixOf (s.data.map Char.toLower)) && shapeDisjunction s) := by
  simp only [is_screenshot_file]
  by_cases hA : (".png".toList.isSuffixOf (s.data.map Char.toLower) ||
      ".jpg".toList.isSuffixOf (s.data.map Char.toLower) ||
      ".jpeg".toList.isSuffixOf (s.data.map Char.toLower)) = true
  · simp [hA]
  · have hA' : (".png".toList.isSuffixOf (s.data.map Char.toLower) ||
        ".jpg".toList.isSuffixOf (s.data.map Char.toLower) ||
        ".jpeg".toList.isSuffixOf (s.data.map Char.toLower)) = false :=
      Bool.eq_false_iff.mpr hA
    simp [hA']

/-- C10 counterexample: on `"CleanShot.png\n"` the plain disjunction of the
seven shapes matches (Python `$` matches before a trailing newline) while
the classifier's case-insensitive `endswith` pre-check fails, so the
claimed equivalence is false at this input. -/
theorem claim_C10_counterexample :
    shapeDisjunction "CleanShot.png\n" = true ∧
    is_screenshot_file "CleanShot.png\n" = false :=
  ⟨by rfl, by rfl⟩

/-- C10 amended: for every filename not ending in a newline, the extension
pre-check never changes the result — the classifier equals the plain
disjunction of the seven shape regexes, because every shape ends in one of
the three extensions followed by `$`. -/
theorem claim_C10_amended (s : String) (hnl : s.data.getLast? ≠ some '\n') :
    is_screenshot_file s = shapeDisjunction s := by
  rw [is_screenshot_file_eq]
  by_cases hd : shapeDisjunction s = true
  · have hd' := hd
    unfold shapeDisjunction at hd'
    simp only [Bool.or_eq_true] at hd'
    have hext : (".png".toList.isSuffixOf (s.data.map Char.toLower) ||
        ".jpg".toList.isSuffixOf (s.data.map Char.toLower) ||
        ".jpeg".toList.isSuffixOf (s.data.map Char.toLower)) = true := by
      rcases hd' with (((((h1 | h2) | h3) | h4) | h5) | h6) | h7
      · simp [EndsCI_ends (pat1_ends h1) hnl]
      · simp [EndsCI_ends (pat2_ends h2) hnl]
      · simp [EndsCI_ends (pat3_ends h3) hnl]
      · simp [EndsCI_ends (pat4_ends h4) hnl]
      · simp [EndsCI_ends (pat5_ends h5) hnl]
      · simp [EndsCI_ends (pat6_ends h6) hnl]
      · simp [EndsCI_ends (pat7_ends h7) hnl]
    rw [hext, Bool.true_and]
  · have hd0 : shapeDisjunction s = false := Bool.eq_false_iff.mpr hd
    rw [hd0, Bool.and_false]

/-- C10 amended witness at a concrete screenshot name. -/
theorem claim_C10_amended_witness :
    ("Screenshot 2024-01-01 at 10.00.00 AM.png" : String).data.getLast? ≠ some '\n' ∧
    is_screenshot_file "Screenshot 2024-01-01 at 10.00.00 AM.png" =
      shapeDisjunction "Screenshot 2024-01-01 at 10.00.00 AM.png" :=
  ⟨by decide, claim_C10_amended "Screenshot 2024-01-01 at 10.00.00 AM.png" (by decide)⟩

/-! ### Claim C7: the code's sanitizer equals the spec's step list -/

theorem ws_ne_dot {c : Char} (hc : pyIsSpace c = true) : (c != '.') = true := by
  simp only [pyIsSpace, Bool.or_eq_true, decide_eq_true_eq] at hc
  rcases hc with ((((rfl | rfl) | rfl) | rfl) | rfl) | rfl <;> decide

theorem ws_replace {c : Char} (hc : pyIsSpace c = true) : replaceNonWord c = '-' := by
  simp only [pyIsSpace, Bool.or_eq_true, decide_eq_true_eq] at hc
  rcases hc with ((((rfl | rfl) | rfl) | rfl) | rfl) | rfl <;> decide

theorem trimH_cons_hyphen (Z : List Char) :
    trimHyphens ('-' :: Z) = trimHyphens Z := by
  simp [trimHyphens, List.dropWhile_cons]

theorem collapse_cons_cons_hyphen (Y : List Char) :
    collapseHyphens ('-' :: '-' :: Y) = collapseHyphens ('-' :: Y) := by
  simp [collapseHyphens]

theorem collapse_cons_ne {c c2 : Char} (h : ¬(c = '-' ∧ c2 = '-')) (Y : List Char) :
    collapseHyphens (c :: c2 :: Y) = c :: collapseHyphens (c2 :: Y) := by
  have hcond : (c == '-' && c2 == '-') = false := by
    rcases Decidable.em (c = '-') with rfl | hne
    · have h2 : ¬c2 = '-' := fun hh => h ⟨rfl, hh⟩
      simp [h2]
    · simp [hne]
  rw [collapseHyphens, hcond]
  rfl

theorem trimCollapse_cons_hyphen (Y : List Char) :
    trimHyphens (collapseHyphens ('-' :: Y)) = trimHyphens (collapseHyphens Y) := by
  cases Y with
  | nil => rfl
  | cons c Y' =>
    by_cases hc : c = '-'
    · subst hc
      rw [collapse_cons_cons_hyphen]
    · rw [collapse_cons_ne (fun hh => hc hh.2)]
      exact trimH_cons_hyphen _

theorem collapse_append_hyphen : ∀ Z : List Char,
    collapseHyphens (Z ++ ['-']) =
      if Z.getLast? = some '-' then collapseHyphens Z
      else collapseHyphens Z ++ ['-'] := by
  intro Z
  induction Z with
  | nil => simp [collapseHyphens]
  | cons c Z' ih =>
    cases Z' with
    | nil => by_cases hc : c = '-' <;> simp [collapseHyphens, hc]
    | cons c2 Z'' =>
      have hlast : (c :: c2 :: Z'').getLast? = (c2 :: Z'').getLast? :=
        List.getLast?_cons_cons
      by_cases hcc : c = '-' ∧ c2 = '-'
      · obtain ⟨rfl, rfl⟩ := hcc
        have e1 : (('-' :: '-' :: Z'') ++ ['-']) = '-' :: (('-' :: Z'') ++ ['-']) := rfl
        rw [e1, show ('-' : Char) :: (('-' :: Z'') ++ ['-']) =
          '-' :: '-' :: (Z'' ++ ['-']) from rfl, collapse_cons_cons_hyphen,
          show ('-' : Char) :: (Z'' ++ ['-']) = ('-' :: Z'') ++ ['-'] from rfl, ih,
          hlast, collapse_cons_cons_hyphen]
      · have e1 : ((c :: c2 :: Z'') ++ ['-']) = c :: ((c2 :: Z'') ++ ['-']) := rfl
        rw [e1, show c :: ((c2 :: Z'') ++ ['-']) = c :: c2 :: (Z'' ++ ['-']) from rfl,
          collapse_cons_ne hcc, show c2 :: (Z'' ++ ['-']) = (c2 :: Z'') ++ ['-'] from rfl,
          ih, hlast, collapse_cons_ne hcc]
        split_ifs <;> simp

theorem trimH_append_hyphen (W : List Char) :
    trimHyphens (W ++ ['-']) = trimHyphens W := by
  unfold trimHyphens
  rw [List.dropWhile_append]
  by_cases hW : (W.dropWhile (· == '-')).isEmpty = true
  · rw [if_pos hW]
    have hW' : W.dropWhile (· == '-') = [] := List.isEmpty_iff.mp hW
    rw [hW']
    rfl
  · rw [if_neg hW]
    rw [List.reverse_append]
    have : (['-'] : List Char).reverse = ['-'] := rfl
    rw [this, show (['-'] : List Char) ++ (W.dropWhile (· == '-')).reverse =
      '-' :: (W.dropWhile (· == '-')).reverse from rfl, List.dropWhile_cons_of_pos
      (by decide)]

theorem trimCollapse_append_hyphen (Z : List Char) :
    trimHyphens (collapseHyphens (Z ++ ['-'])) = trimHyphens (collapseHyphens Z) := by
  rw [collapse_append_hyphen]
  split_ifs with h
  · rfl
  · exact trimH_append_hyphen _

theorem sanitize_lstrip (cs : List Char) :
    trimHyphens (collapseHyphens (((cs.dropWhile pyIsSpace).takeWhile
      (· != '.')).map replaceNonWord)) =
    trimHyphens (collapseHyphens ((cs.takeWhile (· != '.')).map replaceNonWord)) := by
  induction cs with
  | nil => rfl
  | cons c cs' ih =>
    by_cases hc : pyIsSpace c = true
    · rw [List.dropWhile_cons_of_pos hc,
        @List.takeWhile_cons_of_pos Char (fun x => x != '.') c cs' (ws_ne_dot hc),
        List.map_cons, ws_replace hc, trimCollapse_cons_hyphen]
      exact ih
    · rw [List.dropWhile_cons_of_neg hc]

theorem sanitize_rstrip (l : List Char) :
    trimHyphens (collapseHyphens ((((l.reverse.dropWhile pyIsSpace).reverse).takeWhile
      (· != '.')).map replaceNonWord)) =
    trimHyphens (collapseHyphens ((l.takeWhile (· != '.')).map replaceNonWord)) := by
  induction l using List.reverseRecOn with
  | nil => rfl
  | append_singleton m c ih =>
    by_cases hc : pyIsSpace c = true
    · have hr : ((m ++ [c]).reverse.dropWhile pyIsSpace).reverse =
          (m.reverse.dropWhile pyIsSpace).reverse := by
        rw [List.reverse_append, show (([c] : List Char).reverse ++ m.reverse) =
          c :: m.reverse from rfl, List.dropWhile_cons_of_pos hc]
      rw [hr, ih]
      rw [List.takeWhile_append]
      by_cases hm : (m.takeWhile (· != '.')).length = m.length
      · rw [if_pos hm]
        have hmeq : m.takeWhile (· != '.') = m :=
          (List.takeWhile_prefix _).eq_of_length hm
        rw [show ([c].takeWhile (· != '.')) = [c] from by
            rw [@List.takeWhile_cons_of_pos Char (fun x => x != '.') c [] (ws_ne_dot hc)]; rfl,
          List.map_append, show ([c].map replaceNonWord) = ['-'] from by
            rw [List.map_cons, ws_replace hc]; rfl,
          trimCollapse_append_hyphen, hmeq]
      · rw [if_neg hm]
    · have hr : ((m ++ [c]).reverse.dropWhile pyIsSpace).reverse = m ++ [c] := by
        rw [List.reverse_append, show (([c] : List Char).reverse ++ m.reverse) =
          c :: m.reverse from rfl, List.dropWhile_cons_of_neg hc]
        simp
      rw [hr]

theorem sanitize_strip_absorbed (cs : List Char) :
    trimHyphens (collapseHyphens (((pyStrip cs).takeWhile (· != '.')).map
      replaceNonWord)) =
    trimHyphens (collapseHyphens ((cs.takeWhile (· != '.')).map replaceNonWord)) := by
  unfold pyStrip
  rw [sanitize_rstrip (cs.dropWhile pyIsSpace), sanitize_lstrip]

/-- C7: the code's sanitization (which additionally strips surrounding
whitespace first — absorbed by the later hyphen replacement and trimming)
equals the spec's step list for every raw collaborator string, and
sanitizes `"Login Page Error."` to `login-page-error`; an empty result is
reported as collaborator failure (`none`). -/
theorem claim_C7_sanitization :
    (∀ raw : String, sanitize_description raw = sanitizeSpec raw) ∧
    sanitize_description "Login Page Error." = some "login-page-error" := by
  refine ⟨?_, by rfl⟩
  intro raw
  simp only [sanitize_description, sanitizeSpec]
  rw [sanitize_strip_absorbed]

end Airenamer
